import Mathlib

set_option maxRecDepth 400000

/-
Verification of the phase-chain runner in
`src/autogen/autogen_custom_problems.py`.

The embedding models:
  * the static scenario table `CustomProblemWorkflow.SCENARIOS` (lines 30-131),
  * the phase-key normalization `phase['name'].lower().replace(' ', '_')`
    (lines 188 and 207),
  * the outbound-message construction in `execute_phase` (lines 181-195),
  * the completion call and output storage (lines 197-208), with the
    chat-completion client abstracted as a function from the call's inputs to
    a response or an error (the raised exception's message),
  * the run loop `run` (lines 157-172), which executes the phases in order and
    lets any exception propagate,
  * the transcript file name built in `print_summary` (lines 243-244), and
  * the exit status of `main` (lines 312-324).

Python dicts preserve insertion order; `self.outputs` is modelled as an
association list with Python `d[k] = v` update semantics (`pySet`).  Strings
are Lean `String`s; `str.lower()` is modelled per-character with
`Char.toLower`, which agrees with Python on the ASCII text appearing in the
program.  Printing to the console is not modelled; `temperature` and
`max_tokens` are opaque configuration values that never influence control
flow, so they are omitted from the client's arguments.
-/

namespace AutogenDemo

/-- One entry of a scenario's `phases` list: `name`, `agent`, `prompt`. -/
structure PhaseDef where
  name : String
  agent : String
  prompt : String
deriving DecidableEq, Repr

/-- One value of the `SCENARIOS` table: display `name` and ordered `phases`. -/
structure Scenario where
  name : String
  phases : List PhaseDef
deriving DecidableEq, Repr

/-! ### The static scenario table (source lines 30-131), transcribed verbatim -/

def confPhase1 : PhaseDef :=
  ⟨"Research & Requirements", "Conference Researcher",
   "You are a conference planning expert. Research and identify key requirements for a 3-day conference including: target audience, main themes, session types, networking opportunities, and logistical needs. Provide a comprehensive overview in 150 words."⟩

def confPhase2 : PhaseDef :=
  ⟨"Agenda Structure", "Agenda Designer",
   "You are an agenda design specialist. Based on the research, create a structured 3-day conference agenda structure including: daily themes, session timing, breaks, keynote slots, and parallel tracks. Provide a day-by-day framework in 150 words."⟩

def confPhase3 : PhaseDef :=
  ⟨"Content Planning", "Content Strategist",
   "You are a content strategist. Based on the agenda structure, plan specific session topics, speaker recommendations, workshop ideas, and interactive activities for each day. Make it engaging and valuable in 150 words."⟩

def confPhase4 : PhaseDef :=
  ⟨"Final Review", "Conference Reviewer",
   "You are a conference quality reviewer. Review the complete conference plan and provide 3 key recommendations for success, potential improvements, and critical success factors. Be concise in 150 words."⟩

def conference : Scenario :=
  ⟨"3-Day Conference Agenda Planning", [confPhase1, confPhase2, confPhase3, confPhase4]⟩

def mktPhase1 : PhaseDef :=
  ⟨"Market Analysis", "Market Analyst",
   "You are a market analyst. Analyze the target market for the product including: customer segments, competitive landscape, market trends, and opportunities. Provide insights in 150 words."⟩

def mktPhase2 : PhaseDef :=
  ⟨"Strategy Development", "Marketing Strategist",
   "You are a marketing strategist. Based on the market analysis, develop a comprehensive marketing strategy including: positioning, key messages, target channels, and campaign approach. Be strategic in 150 words."⟩

def mktPhase3 : PhaseDef :=
  ⟨"Tactical Planning", "Marketing Tactician",
   "You are a marketing tactician. Based on the strategy, create specific tactical plans including: content types, social media approach, advertising channels, and promotional activities. Be actionable in 150 words."⟩

def mktPhase4 : PhaseDef :=
  ⟨"Success Metrics", "Marketing Analyst",
   "You are a marketing analyst. Define success metrics and KPIs for the marketing strategy including: measurement methods, target goals, and evaluation criteria. Be specific in 150 words."⟩

def marketing : Scenario :=
  ⟨"Marketing Strategy Design", [mktPhase1, mktPhase2, mktPhase3, mktPhase4]⟩

def resPhase1 : PhaseDef :=
  ⟨"Topic Research", "Research Specialist",
   "You are a research specialist. Research and identify the research topic scope, key questions, existing literature gaps, and significance of the research area. Provide a comprehensive overview in 150 words."⟩

def resPhase2 : PhaseDef :=
  ⟨"Outline Structure", "Academic Writer",
   "You are an academic writer. Based on the research, create a structured research paper outline including: abstract, introduction, literature review, methodology, results, discussion, and conclusion sections. Provide a detailed framework in 150 words."⟩

def resPhase3 : PhaseDef :=
  ⟨"Content Planning", "Content Planner",
   "You are a content planner. Based on the outline, plan specific content for each section including: key points, data requirements, analysis methods, and expected contributions. Be detailed in 150 words."⟩

def resPhase4 : PhaseDef :=
  ⟨"Review & Refinement", "Academic Reviewer",
   "You are an academic reviewer. Review the research paper outline and provide 3 key recommendations for improvement, potential gaps, and academic rigor enhancements. Be constructive in 150 words."⟩

def research : Scenario :=
  ⟨"Research Paper Outline", [resPhase1, resPhase2, resPhase3, resPhase4]⟩

def archPhase1 : PhaseDef :=
  ⟨"Requirements Analysis", "Systems Analyst",
   "You are a systems analyst. Analyze the software requirements including: functional requirements, non-functional requirements, scalability needs, and technical constraints. Provide a comprehensive analysis in 150 words."⟩

def archPhase2 : PhaseDef :=
  ⟨"Architecture Design", "Software Architect",
   "You are a software architect. Based on the requirements, design the software architecture including: system components, technology stack, architectural patterns, and system interactions. Provide a high-level design in 150 words."⟩

def archPhase3 : PhaseDef :=
  ⟨"Technical Planning", "Technical Lead",
   "You are a technical lead. Based on the architecture, plan technical implementation details including: database design, API structure, security measures, and deployment strategy. Be technical in 150 words."⟩

def archPhase4 : PhaseDef :=
  ⟨"Architecture Review", "Architecture Reviewer",
   "You are an architecture reviewer. Review the software architecture plan and provide 3 key recommendations for improvement, potential risks, and best practices. Be critical in 150 words."⟩

def architecture : Scenario :=
  ⟨"Software Architecture Planning", [archPhase1, archPhase2, archPhase3, archPhase4]⟩

/-- The `SCENARIOS` class attribute (lines 30-131): scenario-type key to scenario. -/
def SCENARIOS : List (String × Scenario) :=
  [("conference", conference), ("marketing", marketing),
   ("research", research), ("architecture", architecture)]

/-- The four scenarios of the table, in table order. -/
def tableScenarios : List Scenario := [conference, marketing, research, architecture]

/-- The four valid scenario-type identifiers, in table order. -/
def scenarioTypeList : List String := ["conference", "marketing", "research", "architecture"]

/-! ### Phase-key normalization (lines 188 and 207) -/

/-- Python `s.lower()`, per character (the program's text is ASCII). -/
def pyLower (s : String) : String := String.mk (s.data.map Char.toLower)

/-- Python `s.replace(' ', '_')`: the pattern is a single character, so the
replacement is the per-character map. -/
def pyReplaceSpaceUnderscore (s : String) : String :=
  String.mk (s.data.map (fun c => if c = ' ' then '_' else c))

/-- The normalization `name.lower().replace(' ', '_')`. -/
def normKey (s : String) : String := pyReplaceSpaceUnderscore (pyLower s)

/-- The per-character step of `normKey`. -/
def normChar (c : Char) : Char :=
  if Char.toLower c = ' ' then '_' else Char.toLower c

/-- The key read when building context: `prev_phase['name'].lower().replace(' ', '_')` (line 188). -/
def readKeyOf (p : PhaseDef) : String := normKey p.name

/-- The key written when storing a response: `phase_config['name'].lower().replace(' ', '_')` (line 207). -/
def storeKeyOf (p : PhaseDef) : String := normKey p.name

/-- Normalized keys of a phase list, in order. -/
def keysOf (l : List PhaseDef) : List String := l.map storeKeyOf

/-! ### `self.outputs` as an insertion-ordered dict (association list) -/

/-- Python `d.get(k)` / `k in d` lookup: first (only) binding of the key. -/
def pyGet {β : Type} : List (String × β) → String → Option β
  | [], _ => none
  | (k, v) :: rest, key => if k = key then some v else pyGet rest key

/-- Python `d[k] = v`: replace the existing binding in place, else append. -/
def pySet {β : Type} : List (String × β) → String → β → List (String × β)
  | [], key, v => [(key, v)]
  | (k, w) :: rest, key, v =>
    if k = key then (key, v) :: rest else (k, w) :: pySet rest key v

/-! ### Outbound-message construction (`execute_phase`, lines 181-195) -/

/-- One iteration of the context loop (lines 187-190): the rendered block for
`prev`, or `""` when its key is absent from `outputs`. -/
def contextEntry (outputs : List (String × String)) (prev : PhaseDef) : String :=
  match pyGet outputs (readKeyOf prev) with
  | some out => "\n" ++ prev.name ++ ":\n" ++ out ++ "\n"
  | none => ""

/-- Concatenation of a list of strings, in order. -/
def concatAll : List String → String
  | [] => ""
  | s :: rest => s ++ concatAll rest

/-- The `context` string of lines 186-190: the header, then the rendered block
of every phase in `phases[:phase_num-1]` whose key is present. -/
def buildContext (scenario : Scenario) (outputs : List (String × String))
    (phase_num : Nat) : String :=
  "\n\nPrevious Phase Results:\n" ++
    concatAll ((scenario.phases.take (phase_num - 1)).map (contextEntry outputs))

/-- The `user_message` of lines 181-195: the phase prompt, with the context
block prepended when `phase_num > 1`, and the topic line prepended when the
topic is non-empty (Python string truthiness). -/
def buildUserMessage (scenario : Scenario) (topic : String)
    (outputs : List (String × String)) (phase_num : Nat)
    (phase_config : PhaseDef) : String :=
  let base := phase_config.prompt
  let withContext :=
    if 1 < phase_num then buildContext scenario outputs phase_num ++ "\n" ++ base
    else base
  if topic ≠ "" then "Topic/Product: " ++ topic ++ "\n\n" ++ withContext
  else withContext

/-! ### The completion call and the run loop -/

/-- The chat-completion collaborator: given the call number (the 1-based phase
index — the calls of a run are strictly sequential), the system message and
the user message, return the response text or the raised exception's message.
Model, temperature and max-token settings are opaque configuration. -/
def Client := Nat → String → String → Except String String

/-- The system message of line 202: `You are {agent}. {prompt}`. -/
def systemMessage (phase_config : PhaseDef) : String :=
  "You are " ++ phase_config.agent ++ ". " ++ phase_config.prompt

/-- The body of `execute_phase` (lines 174-211): build the user message, call the client,
and on success store the response under the normalized key.  An error is the
uncaught exception, propagated to the caller unchanged. -/
def execute_phase (client : Client) (scenario : Scenario) (topic : String)
    (outputs : List (String × String)) (phase_num : Nat)
    (phase_config : PhaseDef) : Except String (List (String × String)) :=
  match client phase_num (systemMessage phase_config)
      (buildUserMessage scenario topic outputs phase_num phase_config) with
  | Except.error e => Except.error e
  | Except.ok resp => Except.ok (pySet outputs (storeKeyOf phase_config) resp)

/-- The phase loop of `run` (lines 167-169) from phase index `i` with current
`outputs`, over the remaining phases.  Returns the final `self.outputs`
together with the propagated exception, if any: an exception aborts the loop
immediately and leaves the outputs stored so far intact. -/
def runPhasesFrom (client : Client) (scenario : Scenario) (topic : String) :
    Nat → List (String × String) → List PhaseDef →
    List (String × String) × Option String
  | _, outputs, [] => (outputs, none)
  | i, outputs, p :: ps =>
    match execute_phase client scenario topic outputs i p with
    | Except.error e => (outputs, some e)
    | Except.ok outputs2 => runPhasesFrom client scenario topic (i + 1) outputs2 ps

/-- The method `run` (lines 157-172): `self.outputs` starts empty (`__init__`, line 151)
and the phases execute in order with 1-based indices. -/
def runPhases (client : Client) (scenario : Scenario) (topic : String) :
    List (String × String) × Option String :=
  runPhasesFrom client scenario topic 1 [] scenario.phases

/-- The value of `self.outputs` at the moment phase `i` (1-based) begins:
the state after running the first `i - 1` phases. -/
def outputsBefore (client : Client) (scenario : Scenario) (topic : String)
    (i : Nat) : List (String × String) :=
  (runPhasesFrom client scenario topic 1 [] (scenario.phases.take (i - 1))).1

/-- The first `i` phases of the run all succeed (no exception raised). -/
def okThrough (client : Client) (scenario : Scenario) (topic : String)
    (i : Nat) : Prop :=
  (runPhasesFrom client scenario topic 1 [] (scenario.phases.take i)).2 = none

instance okThroughDecidable (client : Client) (scenario : Scenario) (topic : String)
    (i : Nat) : Decidable (okThrough client scenario topic i) :=
  inferInstanceAs
    (Decidable ((runPhasesFrom client scenario topic 1 [] (scenario.phases.take i)).2 = none))

/-! ### Transcript file name (`print_summary`, lines 243-244) and exit status -/

/-- Data determining one run's transcript file: the scenario-type id, the
topic, and the `%Y%m%d_%H%M%S` timestamp taken when the summary is written. -/
structure RunRecord where
  scenario_type : String
  topic : String
  timestamp : String
deriving DecidableEq, Repr

/-- The name `output_file` of line 244: `Exercise_4_`, the scenario type, an
underscore, the timestamp, `.txt`. -/
def outputFileName (r : RunRecord) : String :=
  "Exercise_4_" ++ r.scenario_type ++ "_" ++ r.timestamp ++ ".txt"

/-- Process exit status. -/
inductive ExitStatus
  | success
  | failure
deriving DecidableEq, Repr

/-- Exit status of `main` on the argument-supplied path (lines 312-324).
`configOk` models the result of `Config.validate_setup()` (defined in
`config.py`, outside the sources).  A failed validation or an unknown scenario
type calls `exit(1)` inside `__init__` (lines 141-148); the resulting
`SystemExit` is not an `Exception`, so it escapes the handler and the process
exits with a failure status.  Any exception raised during `workflow.run()` is
caught by `except Exception` (line 316), which prints the error and the
traceback and returns normally, so the process exits with status 0. -/
def mainExit (configOk : Bool) (scenario_type : String) (client : Client)
    (topic : String) : ExitStatus :=
  if ¬ configOk then ExitStatus.failure
  else
    match pyGet SCENARIOS scenario_type with
    | none => ExitStatus.failure
    | some scenario =>
      match (runPhases client scenario topic).2 with
      | some _ => ExitStatus.success
      | none => ExitStatus.success

/-! ### Substring utilities used to state the claims -/

/-- Whether `needle` starts `hay`. -/
def startsWithChars : List Char → List Char → Bool
  | [], _ => true
  | _ :: _, [] => false
  | a :: as, b :: bs => a == b && startsWithChars as bs

/-- Whether `needle` occurs somewhere in `hay`. -/
def hasSubChars (needle : List Char) : List Char → Bool
  | [] => startsWithChars needle []
  | c :: rest => startsWithChars needle (c :: rest) || hasSubChars needle rest

/-! ### Concrete clients used to instantiate the theorems -/

/-- A client whose every completion call succeeds with a fixed text. -/
def okClient : Client := fun _ _ _ => Except.ok "Sample phase output."

/-- A client whose every completion call raises `APIConnectionError`. -/
def apiFailClient : Client := fun _ _ _ => Except.error "APIConnectionError"

/-- A client whose every completion call raises `boom`; in particular its
phase-1 call fails. -/
def failClient : Client := fun _ _ _ => Except.error "boom"

/-- A client whose phase-1 call succeeds and whose later calls raise `boom`:
its runs fail at phase 2. -/
def stepFailClient : Client :=
  fun i _ _ => if i ≤ 1 then Except.ok "phase one text" else Except.error "boom"

/-- A client whose responses contain a `Topic/Product:` line of their own. -/
def leakClient : Client :=
  fun _ _ _ => Except.ok "Topic/Product: SmartWidget\nSegment analysis follows."

end AutogenDemo

namespace AutogenDemo


/-! ### Character-level facts about the normalization -/

/-- Decoding `Char.ofNat` of a valid code point gives it back. -/
theorem charToNat_ofNat (n : Nat) (h : n.isValidChar) : (Char.ofNat n).toNat = n := by
  unfold Char.ofNat
  rw [dif_pos h]
  rfl

/-- ASCII lowercasing is idempotent. -/
theorem charToLower_idem (c : Char) : Char.toLower (Char.toLower c) = Char.toLower c := by
  unfold Char.toLower
  by_cases h : c.toNat ≥ 65 ∧ c.toNat ≤ 90
  · rw [if_pos h]
    have hv : (c.toNat + 32).isValidChar := Or.inl (by omega)
    have ht : (Char.ofNat (c.toNat + 32)).toNat = c.toNat + 32 := charToNat_ofNat _ hv
    rw [ht, if_neg (by omega)]
  · rw [if_neg h, if_neg h]

theorem normChar_idem (c : Char) : normChar (normChar c) = normChar c := by
  unfold normChar
  by_cases h : Char.toLower c = ' '
  · rw [if_pos h]
    decide
  · rw [if_neg h, charToLower_idem, if_neg h]

theorem normKey_eq_map (s : String) : normKey s = String.mk (s.data.map normChar) := by
  unfold normKey pyLower pyReplaceSpaceUnderscore normChar
  rw [List.map_map]
  rfl

/-- The normalization is idempotent. -/
theorem normKey_idem (s : String) : normKey (normKey s) = normKey s := by
  rw [normKey_eq_map s]
  rw [normKey_eq_map (String.mk (s.data.map normChar))]
  show String.mk ((s.data.map normChar).map normChar) = String.mk (s.data.map normChar)
  rw [List.map_map]
  have hc : (normChar ∘ normChar) = normChar := funext normChar_idem
  rw [hc]

/-! ### Association-list facts -/

theorem pyGet_cons {β : Type} (k key : String) (v : β) (d : List (String × β)) :
    pyGet ((k, v) :: d) key = if k = key then some v else pyGet d key := rfl

theorem pySet_cons {β : Type} (k key : String) (w v : β) (d : List (String × β)) :
    pySet ((k, w) :: d) key v = if k = key then (key, v) :: d else (k, w) :: pySet d key v := rfl

theorem pyGet_cons_ne {β : Type} (k key : String) (v : β) (d : List (String × β))
    (h : k ≠ key) : pyGet ((k, v) :: d) key = pyGet d key := by
  rw [pyGet_cons, if_neg h]

theorem pyGet_append_of_none {β : Type} (d1 d2 : List (String × β)) (key : String)
    (h : pyGet d1 key = none) : pyGet (d1 ++ d2) key = pyGet d2 key := by
  induction d1 with
  | nil => rfl
  | cons kv rest ih =>
    obtain ⟨k, v⟩ := kv
    by_cases hk : k = key
    · exfalso
      rw [pyGet_cons, if_pos hk] at h
      exact Option.noConfusion h
    · rw [List.cons_append, pyGet_cons_ne k key v (rest ++ d2) hk]
      rw [pyGet_cons_ne k key v rest hk] at h
      exact ih h

theorem pyGet_singleton_ne {β : Type} (k key : String) (v : β) (h : k ≠ key) :
    pyGet [(k, v)] key = none := by
  rw [pyGet_cons, if_neg h]
  rfl

theorem pySet_append_of_absent {β : Type} (d : List (String × β)) (key : String) (v : β)
    (h : pyGet d key = none) : pySet d key v = d ++ [(key, v)] := by
  induction d with
  | nil => rfl
  | cons kv rest ih =>
    obtain ⟨k, w⟩ := kv
    by_cases hk : k = key
    · exfalso
      rw [pyGet_cons, if_pos hk] at h
      exact Option.noConfusion h
    · rw [pySet_cons, if_neg hk, List.cons_append]
      rw [pyGet_cons_ne k key w rest hk] at h
      rw [ih h]

/-- A key not among the zipped keys is absent from the zip. -/
theorem pyGet_zip_none (keys : List String) (vals : List String) (key : String)
    (h : key ∉ keys) : pyGet (keys.zip vals) key = none := by
  induction keys generalizing vals with
  | nil => rfl
  | cons k rest ih =>
    cases vals with
    | nil => rfl
    | cons v vs =>
      rw [List.zip_cons_cons,
        pyGet_cons_ne k key v (rest.zip vs) (fun he => h (he ▸ List.mem_cons_self k rest))]
      exact ih vs (fun hm => h (List.mem_cons_of_mem k hm))

end AutogenDemo

namespace AutogenDemo

/-! ### Run-loop decomposition -/

theorem runPhasesFrom_nil (c : Client) (s : Scenario) (t : String) (i : Nat)
    (outs : List (String × String)) : runPhasesFrom c s t i outs [] = (outs, none) := rfl

theorem runPhasesFrom_cons_err (c : Client) (s : Scenario) (t : String) (i : Nat)
    (outs : List (String × String)) (p : PhaseDef) (ps : List PhaseDef) (e : String)
    (hx : execute_phase c s t outs i p = Except.error e) :
    runPhasesFrom c s t i outs (p :: ps) = (outs, some e) := by
  simp only [runPhasesFrom, hx]

theorem runPhasesFrom_cons_ok (c : Client) (s : Scenario) (t : String) (i : Nat)
    (outs : List (String × String)) (p : PhaseDef) (ps : List PhaseDef)
    (o2 : List (String × String))
    (hx : execute_phase c s t outs i p = Except.ok o2) :
    runPhasesFrom c s t i outs (p :: ps) = runPhasesFrom c s t (i + 1) o2 ps := by
  simp only [runPhasesFrom, hx]

theorem runPhasesFrom_append_ok (l2 : List PhaseDef) (c : Client) (s : Scenario)
    (t : String) : ∀ (l1 : List PhaseDef) (i : Nat) (outs : List (String × String)),
    (runPhasesFrom c s t i outs l1).2 = none →
    runPhasesFrom c s t i outs (l1 ++ l2)
      = runPhasesFrom c s t (i + l1.length) (runPhasesFrom c s t i outs l1).1 l2 := by
  intro l1
  induction l1 with
  | nil =>
    intro i outs _
    rw [List.nil_append, runPhasesFrom_nil]
    rfl
  | cons p ps ih =>
    intro i outs h
    cases hx : execute_phase c s t outs i p with
    | error e =>
      exfalso
      rw [runPhasesFrom_cons_err c s t i outs p ps e hx] at h
      exact Option.noConfusion h
    | ok o2 =>
      rw [runPhasesFrom_cons_ok c s t i outs p ps o2 hx] at h
      rw [List.cons_append, runPhasesFrom_cons_ok c s t i outs p (ps ++ l2) o2 hx]
      rw [ih (i + 1) o2 h]
      rw [runPhasesFrom_cons_ok c s t i outs p ps o2 hx]
      have hn : i + 1 + ps.length = i + (p :: ps).length := by
        rw [List.length_cons]
        omega
      rw [hn]

theorem runPhasesFrom_append_err (l2 : List PhaseDef) (c : Client) (s : Scenario)
    (t : String) (e : String) : ∀ (l1 : List PhaseDef) (i : Nat) (outs : List (String × String)),
    (runPhasesFrom c s t i outs l1).2 = some e →
    runPhasesFrom c s t i outs (l1 ++ l2) = ((runPhasesFrom c s t i outs l1).1, some e) := by
  intro l1
  induction l1 with
  | nil =>
    intro i outs h
    exact Option.noConfusion h
  | cons p ps ih =>
    intro i outs h
    cases hx : execute_phase c s t outs i p with
    | error e2 =>
      rw [runPhasesFrom_cons_err c s t i outs p ps e2 hx] at h
      have he : e2 = e := Option.some.inj h
      subst he
      rw [List.cons_append, runPhasesFrom_cons_err c s t i outs p (ps ++ l2) e2 hx,
        runPhasesFrom_cons_err c s t i outs p ps e2 hx]
    | ok o2 =>
      rw [runPhasesFrom_cons_ok c s t i outs p ps o2 hx] at h
      rw [List.cons_append, runPhasesFrom_cons_ok c s t i outs p (ps ++ l2) o2 hx,
        ih (i + 1) o2 h, runPhasesFrom_cons_ok c s t i outs p ps o2 hx]

/-- A successful segment of the loop appends exactly one entry per phase, in
phase order, under the phases' normalized keys. -/
theorem runPhasesFrom_ok_shape (c : Client) (s : Scenario) (t : String) :
    ∀ (l : List PhaseDef) (i : Nat) (outs : List (String × String)),
    (runPhasesFrom c s t i outs l).2 = none →
    (keysOf l).Nodup →
    (∀ p ∈ l, pyGet outs (storeKeyOf p) = none) →
    ∃ vals : List String, vals.length = l.length ∧
      (runPhasesFrom c s t i outs l).1 = outs ++ (keysOf l).zip vals := by
  intro l
  induction l with
  | nil =>
    intro i outs _ _ _
    refine ⟨[], rfl, ?_⟩
    rw [runPhasesFrom_nil]
    show outs = outs ++ ([] : List (String × String))
    rw [List.append_nil]
  | cons p ps ih =>
    intro i outs h hnd habs
    cases hx : execute_phase c s t outs i p with
    | error e =>
      exfalso
      rw [runPhasesFrom_cons_err c s t i outs p ps e hx] at h
      exact Option.noConfusion h
    | ok o2 =>
      cases hc : c i (systemMessage p) (buildUserMessage s t outs i p) with
      | error e =>
        exfalso
        unfold execute_phase at hx
        rw [hc] at hx
        exact Except.noConfusion hx
      | ok resp =>
        have ho2 : o2 = pySet outs (storeKeyOf p) resp := by
          unfold execute_phase at hx
          rw [hc] at hx
          exact (Except.ok.inj hx).symm
        have hpabs : pyGet outs (storeKeyOf p) = none := habs p (List.mem_cons_self p ps)
        have ho2' : o2 = outs ++ [(storeKeyOf p, resp)] := by
          rw [ho2, pySet_append_of_absent outs (storeKeyOf p) resp hpabs]
        have hkcons : keysOf (p :: ps) = storeKeyOf p :: keysOf ps := rfl
        rw [hkcons] at hnd
        have hnd2 := (List.nodup_cons.mp hnd).2
        have hknotin := (List.nodup_cons.mp hnd).1
        have habs2 : ∀ q ∈ ps, pyGet o2 (storeKeyOf q) = none := by
          intro q hq
          have hqout : pyGet outs (storeKeyOf q) = none :=
            habs q (List.mem_cons_of_mem p hq)
          have hkne : storeKeyOf p ≠ storeKeyOf q := by
            intro he
            exact hknotin (he ▸ List.mem_map_of_mem storeKeyOf hq)
          rw [ho2', pyGet_append_of_none outs [(storeKeyOf p, resp)] (storeKeyOf q) hqout]
          exact pyGet_singleton_ne (storeKeyOf p) (storeKeyOf q) resp hkne
        rw [runPhasesFrom_cons_ok c s t i outs p ps o2 hx] at h
        obtain ⟨vals, hlen, hshape⟩ := ih (i + 1) o2 h hnd2 habs2
        refine ⟨resp :: vals, by rw [List.length_cons, hlen]; rfl, ?_⟩
        rw [runPhasesFrom_cons_ok c s t i outs p ps o2 hx, hshape, ho2']
        rw [hkcons, List.zip_cons_cons, List.append_assoc]
        rfl

end AutogenDemo

namespace AutogenDemo

/-! ### The context block on a reachable output state -/

/-- The read key of line 188 and the write key of line 207 agree. -/
theorem read_eq_store (p : PhaseDef) : readKeyOf p = storeKeyOf p := rfl

theorem contextEntry_cons_ne (d : List (String × String)) (k v : String) (q : PhaseDef)
    (h : k ≠ readKeyOf q) :
    contextEntry ((k, v) :: d) q = contextEntry d q := by
  unfold contextEntry
  rw [pyGet_cons_ne k (readKeyOf q) v d h]

/-- The rendered prior-phase blocks on an output state holding exactly the
values `vals` under the keys of `ps`: one block per phase, in order. -/
theorem contextEntries_zip :
    ∀ (ps : List PhaseDef) (vals : List String),
    (keysOf ps).Nodup → vals.length = ps.length →
    ps.map (contextEntry ((keysOf ps).zip vals))
      = List.zipWith (fun q v => "\n" ++ q.name ++ ":\n" ++ v ++ "\n") ps vals := by
  intro ps
  induction ps with
  | nil => intro vals _ _; rfl
  | cons p ps ih =>
    intro vals hnd hlen
    cases vals with
    | nil => exact absurd hlen.symm (Nat.succ_ne_zero ps.length)
    | cons v vs =>
      have hkcons : keysOf (p :: ps) = storeKeyOf p :: keysOf ps := rfl
      rw [hkcons] at hnd ⊢
      rw [List.zip_cons_cons]
      have hknotin := (List.nodup_cons.mp hnd).1
      have hnd2 := (List.nodup_cons.mp hnd).2
      have hhead : contextEntry ((storeKeyOf p, v) :: (keysOf ps).zip vs) p
          = "\n" ++ p.name ++ ":\n" ++ v ++ "\n" := by
        unfold contextEntry
        rw [read_eq_store, pyGet_cons, if_pos rfl]
      have htail : ps.map (contextEntry ((storeKeyOf p, v) :: (keysOf ps).zip vs))
          = ps.map (contextEntry ((keysOf ps).zip vs)) := by
        apply List.map_congr_left
        intro q hq
        apply contextEntry_cons_ne
        rw [read_eq_store]
        intro he
        exact hknotin (he ▸ List.mem_map_of_mem storeKeyOf hq)
      rw [List.map_cons, hhead, htail,
        ih vs hnd2 (Nat.succ.inj (by rw [List.length_cons, List.length_cons] at hlen; exact hlen)),
        List.zipWith_cons_cons]

/-- The whole `context` string on such a state. -/
theorem buildContext_zip (scenario : Scenario) (i : Nat) (vals : List String)
    (hnd : (keysOf (scenario.phases.take (i - 1))).Nodup)
    (hlen : vals.length = (scenario.phases.take (i - 1)).length) :
    buildContext scenario ((keysOf (scenario.phases.take (i - 1))).zip vals) i
      = "\n\nPrevious Phase Results:\n"
        ++ concatAll (List.zipWith (fun q v => "\n" ++ q.name ++ ":\n" ++ v ++ "\n")
            (scenario.phases.take (i - 1)) vals) := by
  unfold buildContext
  rw [contextEntries_zip (scenario.phases.take (i - 1)) vals hnd hlen]

/-! ### Facts about the static table -/

/-- Within each scenario of the table, the phases' normalized keys are distinct. -/
theorem table_keys_nodup : ∀ scenario ∈ tableScenarios, (keysOf scenario.phases).Nodup := by
  decide

/-- No phase prompt in the table starts with the topic prefix. -/
theorem table_prompt_no_topic : ∀ scenario ∈ tableScenarios, ∀ p ∈ scenario.phases,
    startsWithChars ("Topic/Product: ").data p.prompt.data = false := by
  decide

end AutogenDemo

namespace AutogenDemo

/-! ### Run-state facts -/

theorem keysOf_take (l : List PhaseDef) (n : Nat) : keysOf (l.take n) = (keysOf l).take n :=
  List.map_take storeKeyOf l n

theorem keysOf_append (l1 l2 : List PhaseDef) : keysOf (l1 ++ l2) = keysOf l1 ++ keysOf l2 :=
  List.map_append storeKeyOf l1 l2

theorem keysOf_length (l : List PhaseDef) : (keysOf l).length = l.length :=
  List.length_map l storeKeyOf

theorem length_take_of_get (l : List PhaseDef) (n : Nat) (p : PhaseDef)
    (h : l[n]? = some p) : (l.take n).length = n := by
  have hlt := (List.getElem?_eq_some.mp h).1
  rw [List.length_take]
  exact min_eq_left (Nat.le_of_lt hlt)

/-- While the first `i - 1` phases succeed, `self.outputs` at the start of
phase `i` holds exactly one value per completed phase, keyed and ordered as
the completed phases are. -/
theorem outputsBefore_shape (scenario : Scenario) (client : Client) (topic : String)
    (i : Nat) (hnd : (keysOf scenario.phases).Nodup)
    (hok : okThrough client scenario topic (i - 1)) :
    ∃ vals : List String, vals.length = (scenario.phases.take (i - 1)).length ∧
      outputsBefore client scenario topic i
        = (keysOf (scenario.phases.take (i - 1))).zip vals := by
  have hnd2 : (keysOf (scenario.phases.take (i - 1))).Nodup := by
    rw [keysOf_take]
    exact List.Nodup.sublist (List.take_sublist (i - 1) (keysOf scenario.phases)) hnd
  have habs : ∀ p ∈ scenario.phases.take (i - 1), pyGet ([] : List (String × String)) (storeKeyOf p) = none :=
    fun _ _ => rfl
  obtain ⟨vals, hlen, hshape⟩ :=
    runPhasesFrom_ok_shape client scenario topic (scenario.phases.take (i - 1)) 1 [] hok hnd2 habs
  refine ⟨vals, hlen, ?_⟩
  unfold outputsBefore
  rw [hshape, List.nil_append]

/-- The user message of phase `i > 1` on such a state: topic prefix if the
topic is non-empty, the context header, one block per completed phase in
order, a separating newline, and the phase's prompt. -/
theorem message_shape (scenario : Scenario) (client : Client) (topic : String)
    (i : Nat) (p : PhaseDef) (hnd : (keysOf scenario.phases).Nodup)
    (hget : scenario.phases[i - 1]? = some p) (hi : 1 < i)
    (hok : okThrough client scenario topic (i - 1)) :
    ∃ vals : List String, vals.length = i - 1 ∧
      outputsBefore client scenario topic i
        = (keysOf (scenario.phases.take (i - 1))).zip vals ∧
      buildUserMessage scenario topic (outputsBefore client scenario topic i) i p
        = (if topic ≠ "" then
            "Topic/Product: " ++ topic ++ "\n\n"
              ++ ("\n\nPrevious Phase Results:\n"
                  ++ concatAll (List.zipWith (fun q v => "\n" ++ q.name ++ ":\n" ++ v ++ "\n")
                      (scenario.phases.take (i - 1)) vals)
                  ++ "\n" ++ p.prompt)
          else
            "\n\nPrevious Phase Results:\n"
              ++ concatAll (List.zipWith (fun q v => "\n" ++ q.name ++ ":\n" ++ v ++ "\n")
                  (scenario.phases.take (i - 1)) vals)
              ++ "\n" ++ p.prompt) := by
  obtain ⟨vals, hlen, hshape⟩ := outputsBefore_shape scenario client topic i hnd hok
  have hnd2 : (keysOf (scenario.phases.take (i - 1))).Nodup := by
    rw [keysOf_take]
    exact List.Nodup.sublist (List.take_sublist (i - 1) (keysOf scenario.phases)) hnd
  have hlen2 : (scenario.phases.take (i - 1)).length = i - 1 :=
    length_take_of_get scenario.phases (i - 1) p hget
  refine ⟨vals, by rw [hlen, hlen2], hshape, ?_⟩
  unfold buildUserMessage
  rw [hshape, buildContext_zip scenario i vals hnd2 (by rw [hlen])]
  simp only [if_pos hi]

/-- Two clients that agree on every call the loop can make produce the same
loop result. -/
theorem runPhasesFrom_congr (s : Scenario) (t : String) :
    ∀ (l : List PhaseDef) (c1 c2 : Client) (i : Nat) (outs : List (String × String)),
    (∀ j su uu, i ≤ j → j < i + l.length → c2 j su uu = c1 j su uu) →
    runPhasesFrom c2 s t i outs l = runPhasesFrom c1 s t i outs l := by
  intro l
  induction l with
  | nil => intro c1 c2 i outs _; rfl
  | cons p ps ih =>
    intro c1 c2 i outs h
    have hcall := h i (systemMessage p) (buildUserMessage s t outs i p) (Nat.le_refl i)
      (by rw [List.length_cons]; omega)
    have hex : execute_phase c2 s t outs i p = execute_phase c1 s t outs i p := by
      unfold execute_phase
      rw [hcall]
    cases hx : execute_phase c1 s t outs i p with
    | error e =>
      rw [runPhasesFrom_cons_err c2 s t i outs p ps e (hex.trans hx),
        runPhasesFrom_cons_err c1 s t i outs p ps e hx]
    | ok o2 =>
      rw [runPhasesFrom_cons_ok c2 s t i outs p ps o2 (hex.trans hx),
        runPhasesFrom_cons_ok c1 s t i outs p ps o2 hx]
      exact ih c1 c2 (i + 1) o2
        (fun j su uu hj1 hj2 => h j su uu (Nat.le_of_succ_le hj1)
          (by rw [List.length_cons]; omega))

end AutogenDemo

namespace AutogenDemo

/-! ### Substring helpers for the topic-prefix claims -/

theorem startsWithChars_cons (a b : Char) (as bs : List Char) :
    startsWithChars (a :: as) (b :: bs) = (a == b && startsWithChars as bs) := rfl

theorem startsWithChars_topic_cons_newline (l : List Char) :
    startsWithChars ("Topic/Product: ").data ('\n' :: l) = false := by
  show startsWithChars ('T' :: ("opic/Product: ").data) ('\n' :: l) = false
  rw [startsWithChars_cons]
  rw [show (('T' : Char) == '\n') = false from by decide]
  rw [Bool.false_and]

theorem data_head_append (s r : String) (c : Char) (l : List Char) (h : s.data = c :: l) :
    (s ++ r).data = c :: (l ++ r.data) := by
  rw [String.data_append, h, List.cons_append]

theorem buildContext_data_head (scenario : Scenario) (outputs : List (String × String))
    (i : Nat) : ∃ l, (buildContext scenario outputs i).data = '\n' :: l := by
  unfold buildContext
  rw [String.data_append]
  exact ⟨_, rfl⟩

/-- C7: the phase-name-to-key normalization (lowercase the name, replace
spaces with underscores) is deterministic and idempotent; within every
scenario of the static table, distinct phase names map to distinct keys (and
the keys are pairwise distinct); the key consulted when reading prior outputs
(line 188) is the key used when storing an output (line 207). -/
theorem normalization_deterministic_idempotent_injective :
    (∀ s t : String, s = t → normKey s = normKey t) ∧
    (∀ s : String, normKey (normKey s) = normKey s) ∧
    (∀ scenario ∈ tableScenarios, (scenario.phases.map storeKeyOf).Nodup) ∧
    (∀ scenario ∈ tableScenarios, ∀ p ∈ scenario.phases, ∀ q ∈ scenario.phases,
      p.name ≠ q.name → storeKeyOf p ≠ storeKeyOf q) ∧
    (∀ p : PhaseDef, readKeyOf p = storeKeyOf p) :=
  ⟨fun _ _ h => by rw [h], normKey_idem, table_keys_nodup, by decide, fun _ => rfl⟩

/-- Witness for C7 at the marketing scenario's phase names. -/
theorem normalization_deterministic_idempotent_injective_witness :
    normKey "Market Analysis" = normKey "Market Analysis" ∧
    normKey (normKey "Market Analysis") = normKey "Market Analysis" ∧
    (marketing.phases.map storeKeyOf).Nodup ∧
    storeKeyOf mktPhase1 ≠ storeKeyOf mktPhase2 ∧
    readKeyOf mktPhase1 = storeKeyOf mktPhase1 :=
  ⟨normalization_deterministic_idempotent_injective.1 "Market Analysis" "Market Analysis" rfl,
   normalization_deterministic_idempotent_injective.2.1 "Market Analysis",
   normalization_deterministic_idempotent_injective.2.2.1 marketing (by decide),
   normalization_deterministic_idempotent_injective.2.2.2.1 marketing (by decide)
     mktPhase1 (by decide) mktPhase2 (by decide) (by decide),
   normalization_deterministic_idempotent_injective.2.2.2.2 mktPhase1⟩

/-- C5 (counter-evidence for the claimed exit behavior): with valid
configuration, a run of the `conference` scenario whose phase-1 completion
call raises `APIConnectionError` still makes `main` exit with success status,
because the handler at line 316 catches the exception and returns normally;
only configuration or unknown-scenario failures produce a failure status. -/
theorem phase_failure_exits_with_success_status :
    (runPhases apiFailClient conference "AI Summit").2 = some "APIConnectionError" ∧
    mainExit true "conference" apiFailClient "AI Summit" = ExitStatus.success ∧
    mainExit false "conference" apiFailClient "AI Summit" = ExitStatus.failure ∧
    mainExit true "banquet" apiFailClient "AI Summit" = ExitStatus.failure := by
  refine ⟨?_, ?_, ?_, ?_⟩ <;> decide

/-- C6 counterexample: a run of `conference` failing at phase 1 and a run
failing at phase 2 surface the identical error value `boom` — the propagated
error carries neither the phase index nor the phase name. -/
theorem error_lacks_phase_attribution :
    (runPhases failClient conference "").2 = some "boom" ∧
    (runPhases stepFailClient conference "").2 = some "boom" ∧
    ¬ okThrough failClient conference "" 1 ∧
    okThrough stepFailClient conference "" 1 ∧
    (runPhases failClient conference "").2 = (runPhases stepFailClient conference "").2 := by
  refine ⟨?_, ?_, ?_, ?_, ?_⟩ <;> decide

/-- C3 counterexample: in a run of `conference` with an empty topic whose
phase-1 response contains a `Topic/Product:` line of its own, the outbound
message of phase 2 contains `Topic/Product: ` even though the topic is
empty. -/
theorem empty_topic_prefix_counterexample :
    okThrough leakClient conference "" 1 ∧
    hasSubChars ("Topic/Product: ").data
      (buildUserMessage conference ""
        (outputsBefore leakClient conference "" 2) 2 confPhase2).data = true := by
  refine ⟨?_, ?_⟩ <;> decide

/-- C8 counterexample: two distinct runs of the same scenario whose summaries
are written in the same second receive the same transcript file name. -/
theorem same_second_filename_collision :
    RunRecord.mk "conference" "AI Agents" "20251012_093000"
        ≠ RunRecord.mk "conference" "Robotics" "20251012_093000" ∧
    outputFileName (RunRecord.mk "conference" "AI Agents" "20251012_093000")
      = outputFileName (RunRecord.mk "conference" "Robotics" "20251012_093000") := by
  refine ⟨?_, ?_⟩
  · decide
  · rfl

/-- C3 amended: a non-empty topic is prepended as `Topic/Product: <topic>`
before everything else; with an empty topic the builder prepends nothing and
the message never begins with `Topic/Product: ` — the string can only occur
inside a prior phase's stored output text. -/
theorem topic_prefix_amended :
    ∀ scenario ∈ tableScenarios, ∀ p ∈ scenario.phases,
    ∀ (outputs : List (String × String)) (i : Nat) (topic : String),
    (topic ≠ "" → buildUserMessage scenario topic outputs i p
        = "Topic/Product: " ++ topic ++ "\n\n" ++ buildUserMessage scenario "" outputs i p) ∧
    startsWithChars ("Topic/Product: ").data
      (buildUserMessage scenario "" outputs i p).data = false := by
  intro scenario hs p hp outputs i topic
  have hne : ¬ (("" : String) ≠ "") := fun h => h rfl
  constructor
  · intro ht
    simp only [buildUserMessage, if_pos ht]
    rw [if_neg hne]
  · by_cases hi : 1 < i
    · simp only [buildUserMessage, if_pos hi]
      rw [if_neg hne]
      obtain ⟨l, hl⟩ := buildContext_data_head scenario outputs i
      have h2 := data_head_append (buildContext scenario outputs i) "\n" '\n' l hl
      have h3 := data_head_append (buildContext scenario outputs i ++ "\n") p.prompt '\n'
        (l ++ ("\n").data) h2
      rw [h3]
      exact startsWithChars_topic_cons_newline _
    · simp only [buildUserMessage, if_neg hi]
      rw [if_neg hne]
      exact table_prompt_no_topic scenario hs p hp

/-- Witness for the amended C3 at the conference scenario, phase 1, a
non-empty topic and the empty topic. -/
theorem topic_prefix_amended_witness :
    buildUserMessage conference "AI" [] 1 confPhase1
        = "Topic/Product: " ++ "AI" ++ "\n\n" ++ buildUserMessage conference "" [] 1 confPhase1 ∧
    startsWithChars ("Topic/Product: ").data
      (buildUserMessage conference "" [] 1 confPhase1).data = false :=
  ⟨(topic_prefix_amended conference (by decide) confPhase1 (by decide) [] 1 "AI").1
      (by decide),
   (topic_prefix_amended conference (by decide) confPhase1 (by decide) [] 1 "AI").2⟩

end AutogenDemo

namespace AutogenDemo

/-- C10: for every phase `i > 1` on a run whose first `i - 1` phases
succeeded, the outbound message is exactly: the `Topic/Product:` prefix when
the topic is non-empty, then the context block opening with the header line
`Previous Phase Results:`, then — for each completed phase in scenario
order — its display name, a colon, a line break and its stored output, then a
blank line, then phase `i`'s instruction prompt. -/
theorem message_layout_exact :
    ∀ scenario ∈ tableScenarios, ∀ (client : Client) (topic : String) (i : Nat) (p : PhaseDef),
    scenario.phases[i - 1]? = some p → 1 < i →
    okThrough client scenario topic (i - 1) →
    ∃ vals : List String, vals.length = i - 1 ∧
      outputsBefore client scenario topic i
        = (keysOf (scenario.phases.take (i - 1))).zip vals ∧
      buildUserMessage scenario topic (outputsBefore client scenario topic i) i p
        = (if topic ≠ "" then
            "Topic/Product: " ++ topic ++ "\n\n"
              ++ ("\n\nPrevious Phase Results:\n"
                  ++ concatAll (List.zipWith (fun q v => "\n" ++ q.name ++ ":\n" ++ v ++ "\n")
                      (scenario.phases.take (i - 1)) vals)
                  ++ "\n" ++ p.prompt)
          else
            "\n\nPrevious Phase Results:\n"
              ++ concatAll (List.zipWith (fun q v => "\n" ++ q.name ++ ":\n" ++ v ++ "\n")
                  (scenario.phases.take (i - 1)) vals)
              ++ "\n" ++ p.prompt) := by
  intro scenario hs client topic i p hget hi hok
  exact message_shape scenario client topic i p (table_keys_nodup scenario hs) hget hi hok

/-- Witness for C10: phase 2 of the marketing scenario with the topic of the
spec's end-to-end example and an all-succeeding client. -/
theorem message_layout_exact_witness :
    marketing.phases[2 - 1]? = some mktPhase2 ∧
    okThrough okClient marketing "Smart Home Assistant" (2 - 1) ∧
    (∃ vals : List String, vals.length = 2 - 1 ∧
      outputsBefore okClient marketing "Smart Home Assistant" 2
        = (keysOf (marketing.phases.take (2 - 1))).zip vals ∧
      buildUserMessage marketing "Smart Home Assistant"
          (outputsBefore okClient marketing "Smart Home Assistant" 2) 2 mktPhase2
        = (if "Smart Home Assistant" ≠ "" then
            "Topic/Product: " ++ "Smart Home Assistant" ++ "\n\n"
              ++ ("\n\nPrevious Phase Results:\n"
                  ++ concatAll (List.zipWith (fun q v => "\n" ++ q.name ++ ":\n" ++ v ++ "\n")
                      (marketing.phases.take (2 - 1)) vals)
                  ++ "\n" ++ mktPhase2.prompt)
          else
            "\n\nPrevious Phase Results:\n"
              ++ concatAll (List.zipWith (fun q v => "\n" ++ q.name ++ ":\n" ++ v ++ "\n")
                  (marketing.phases.take (2 - 1)) vals)
              ++ "\n" ++ mktPhase2.prompt)) :=
  ⟨by decide, by decide,
   message_layout_exact marketing (by decide) okClient "Smart Home Assistant" 2 mktPhase2
     (by decide) (by decide) (by decide)⟩

/-- C1: for every phase `i > 1` on a run whose first `i - 1` phases
succeeded, the outbound message contains the full stored output of every
completed phase, each preceded by that phase's display name, in scenario
order with none omitted. -/
theorem phase_message_contains_all_prior_outputs :
    ∀ scenario ∈ tableScenarios, ∀ (client : Client) (topic : String) (i : Nat) (p : PhaseDef),
    scenario.phases[i - 1]? = some p → 1 < i →
    okThrough client scenario topic (i - 1) →
    ∃ (vals : List String) (pre : String),
      vals.length = i - 1 ∧
      outputsBefore client scenario topic i
        = (keysOf (scenario.phases.take (i - 1))).zip vals ∧
      buildUserMessage scenario topic (outputsBefore client scenario topic i) i p
        = pre ++ concatAll (List.zipWith (fun q v => "\n" ++ q.name ++ ":\n" ++ v ++ "\n")
            (scenario.phases.take (i - 1)) vals) ++ ("\n" ++ p.prompt) := by
  intro scenario hs client topic i p hget hi hok
  obtain ⟨vals, hlen, hshape, hmsg⟩ :=
    message_shape scenario client topic i p (table_keys_nodup scenario hs) hget hi hok
  by_cases ht : topic ≠ ""
  · refine ⟨vals, "Topic/Product: " ++ topic ++ "\n\n" ++ "\n\nPrevious Phase Results:\n",
      hlen, hshape, ?_⟩
    rw [hmsg, if_pos ht]
    simp only [String.append_assoc]
  · refine ⟨vals, "\n\nPrevious Phase Results:\n", hlen, hshape, ?_⟩
    rw [hmsg, if_neg ht]
    simp only [String.append_assoc]

/-- Witness for C1: phase 3 of the conference scenario with an all-succeeding
client and no topic. -/
theorem phase_message_contains_all_prior_outputs_witness :
    conference.phases[3 - 1]? = some confPhase3 ∧
    okThrough okClient conference "" (3 - 1) ∧
    (∃ (vals : List String) (pre : String),
      vals.length = 3 - 1 ∧
      outputsBefore okClient conference "" 3
        = (keysOf (conference.phases.take (3 - 1))).zip vals ∧
      buildUserMessage conference "" (outputsBefore okClient conference "" 3) 3 confPhase3
        = pre ++ concatAll (List.zipWith (fun q v => "\n" ++ q.name ++ ":\n" ++ v ++ "\n")
            (conference.phases.take (3 - 1)) vals) ++ ("\n" ++ confPhase3.prompt)) :=
  ⟨by decide, by decide,
   phase_message_contains_all_prior_outputs conference (by decide) okClient "" 3 confPhase3
     (by decide) (by decide) (by decide)⟩

end AutogenDemo

namespace AutogenDemo

theorem keysOf_drop (l : List PhaseDef) (n : Nat) : keysOf (l.drop n) = (keysOf l).drop n :=
  List.map_drop storeKeyOf l n

/-- The keys of the completed prefix and of the remaining phases are disjoint
within a scenario whose keys are distinct. -/
theorem keys_take_drop_disjoint (scenario : Scenario) (n : Nat)
    (hnd : (keysOf scenario.phases).Nodup) :
    (keysOf (scenario.phases.take n)).Disjoint (keysOf (scenario.phases.drop n)) := by
  apply List.disjoint_of_nodup_append
  rw [← keysOf_append, List.take_append_drop]
  exact hnd

/-- C2: a run in which every completion call succeeds stores exactly one
output per phase, keyed by the phases' normalized keys in scenario order, and
the output mapping grows append-only: every intermediate state is a prefix of
the final mapping. -/
theorem run_produces_one_output_per_phase :
    ∀ scenario ∈ tableScenarios, ∀ (client : Client) (topic : String),
    (runPhases client scenario topic).2 = none →
    ((runPhases client scenario topic).1.map Prod.fst = keysOf scenario.phases) ∧
    ((runPhases client scenario topic).1.length = scenario.phases.length) ∧
    (∀ i : Nat, ∃ tail, (runPhases client scenario topic).1
        = outputsBefore client scenario topic i ++ tail) := by
  intro scenario hs client topic hnone
  have hnd := table_keys_nodup scenario hs
  have hrp : runPhases client scenario topic
      = runPhasesFrom client scenario topic 1 [] scenario.phases := rfl
  have habs : ∀ p ∈ scenario.phases,
      pyGet ([] : List (String × String)) (storeKeyOf p) = none := fun _ _ => rfl
  obtain ⟨vals, hlen, hshape⟩ :=
    runPhasesFrom_ok_shape client scenario topic scenario.phases 1 [] hnone hnd habs
  refine ⟨?_, ?_, ?_⟩
  · rw [hrp, hshape, List.nil_append]
    exact List.map_fst_zip (keysOf scenario.phases) vals
      (le_of_eq (by rw [keysOf_length, hlen]))
  · rw [hrp, hshape, List.nil_append, List.length_zip, keysOf_length, hlen]
    exact min_self scenario.phases.length
  · intro i
    cases hpre : (runPhasesFrom client scenario topic 1 [] (scenario.phases.take (i - 1))).2 with
    | some e =>
      exfalso
      have hsplit := runPhasesFrom_append_err (scenario.phases.drop (i - 1)) client scenario
        topic e (scenario.phases.take (i - 1)) 1 [] hpre
      rw [List.take_append_drop] at hsplit
      rw [hrp, hsplit] at hnone
      exact Option.noConfusion hnone
    | none =>
      have hsplit := runPhasesFrom_append_ok (scenario.phases.drop (i - 1)) client scenario
        topic (scenario.phases.take (i - 1)) 1 [] hpre
      have hob : outputsBefore client scenario topic i
          = (runPhasesFrom client scenario topic 1 [] (scenario.phases.take (i - 1))).1 := rfl
      have hwhole : runPhasesFrom client scenario topic 1 [] scenario.phases
          = runPhasesFrom client scenario topic (1 + (scenario.phases.take (i - 1)).length)
              (outputsBefore client scenario topic i) (scenario.phases.drop (i - 1)) := by
        conv_lhs => rw [← List.take_append_drop (i - 1) scenario.phases]
        rw [hsplit, hob]
      have hnone2 : (runPhasesFrom client scenario topic
          (1 + (scenario.phases.take (i - 1)).length)
          (outputsBefore client scenario topic i) (scenario.phases.drop (i - 1))).2 = none := by
        rw [← hwhole, ← hrp]
        exact hnone
      have hnddrop : (keysOf (scenario.phases.drop (i - 1))).Nodup := by
        rw [keysOf_drop]
        exact List.Nodup.sublist (List.drop_sublist (i - 1) (keysOf scenario.phases)) hnd
      obtain ⟨vals1, hlen1, hshape1⟩ := outputsBefore_shape scenario client topic i hnd hpre
      have habs2 : ∀ q ∈ scenario.phases.drop (i - 1),
          pyGet (outputsBefore client scenario topic i) (storeKeyOf q) = none := by
        intro q hq
        rw [hshape1]
        apply pyGet_zip_none
        intro hmem
        exact keys_take_drop_disjoint scenario (i - 1) hnd hmem
          (List.mem_map_of_mem storeKeyOf hq)
      obtain ⟨vals2, hlen2, hshape2⟩ := runPhasesFrom_ok_shape client scenario topic
        (scenario.phases.drop (i - 1)) (1 + (scenario.phases.take (i - 1)).length)
        (outputsBefore client scenario topic i) hnone2 hnddrop habs2
      refine ⟨(keysOf (scenario.phases.drop (i - 1))).zip vals2, ?_⟩
      rw [hrp, hwhole, hshape2]

/-- Witness for C2: a fully successful run of the research scenario. -/
theorem run_produces_one_output_per_phase_witness :
    (runPhases okClient research "").2 = none ∧
    ((runPhases okClient research "").1.map Prod.fst = keysOf research.phases ∧
     (runPhases okClient research "").1.length = research.phases.length ∧
     (∀ i : Nat, ∃ tail, (runPhases okClient research "").1
        = outputsBefore okClient research "" i ++ tail)) :=
  ⟨by decide, run_produces_one_output_per_phase research (by decide) okClient "" (by decide)⟩

end AutogenDemo

namespace AutogenDemo

/-- C9: `self.outputs` starts empty; at the moment phase `i` begins it holds
exactly the normalized keys of phases `1..i-1`, in order; a successful phase
`i` appends exactly its own entry and leaves every stored entry unchanged. -/
theorem run_loop_invariant :
    ∀ scenario ∈ tableScenarios, ∀ (client : Client) (topic : String),
    outputsBefore client scenario topic 1 = [] ∧
    (∀ (i : Nat) (p : PhaseDef), scenario.phases[i - 1]? = some p → 1 ≤ i →
      okThrough client scenario topic (i - 1) →
      ((outputsBefore client scenario topic i).map Prod.fst
          = keysOf (scenario.phases.take (i - 1))) ∧
      (okThrough client scenario topic i →
        ∃ v : String, outputsBefore client scenario topic (i + 1)
            = outputsBefore client scenario topic i ++ [(storeKeyOf p, v)])) := by
  intro scenario hs client topic
  have hnd := table_keys_nodup scenario hs
  refine ⟨rfl, ?_⟩
  intro i p hget h1 hok
  obtain ⟨vals, hlenv, hshape⟩ := outputsBefore_shape scenario client topic i hnd hok
  constructor
  · rw [hshape]
    exact List.map_fst_zip (keysOf (scenario.phases.take (i - 1))) vals
      (le_of_eq (by rw [keysOf_length, hlenv]))
  · intro hoki
    have hsub : i - 1 + 1 = i := by omega
    have htake : scenario.phases.take i = scenario.phases.take (i - 1) ++ [p] := by
      conv_lhs => rw [← hsub]
      rw [List.take_succ, hget]
      rfl
    have hlent : (scenario.phases.take (i - 1)).length = i - 1 :=
      length_take_of_get scenario.phases (i - 1) p hget
    have hidx : 1 + (scenario.phases.take (i - 1)).length = i := by
      rw [hlent]
      omega
    have hob : outputsBefore client scenario topic i
        = (runPhasesFrom client scenario topic 1 [] (scenario.phases.take (i - 1))).1 := rfl
    have hdec := runPhasesFrom_append_ok [p] client scenario topic
      (scenario.phases.take (i - 1)) 1 [] hok
    rw [hidx, ← hob] at hdec
    have hoki2 : (runPhasesFrom client scenario topic i
        (outputsBefore client scenario topic i) [p]).2 = none := by
      rw [← hdec, ← htake]
      exact hoki
    cases hx : execute_phase client scenario topic
        (outputsBefore client scenario topic i) i p with
    | error e =>
      exfalso
      rw [runPhasesFrom_cons_err client scenario topic i
        (outputsBefore client scenario topic i) p [] e hx] at hoki2
      exact Option.noConfusion hoki2
    | ok o2 =>
      cases hc : client i (systemMessage p)
          (buildUserMessage scenario topic (outputsBefore client scenario topic i) i p) with
      | error e =>
        exfalso
        unfold execute_phase at hx
        rw [hc] at hx
        exact Except.noConfusion hx
      | ok resp =>
        have ho2 : o2 = pySet (outputsBefore client scenario topic i) (storeKeyOf p) resp := by
          unfold execute_phase at hx
          rw [hc] at hx
          exact (Except.ok.inj hx).symm
        have hknotin : storeKeyOf p ∉ keysOf (scenario.phases.take (i - 1)) := by
          intro hmem
          have hndi : (keysOf (scenario.phases.take i)).Nodup := by
            rw [keysOf_take]
            exact List.Nodup.sublist (List.take_sublist i (keysOf scenario.phases)) hnd
          rw [htake, keysOf_append] at hndi
          exact List.disjoint_of_nodup_append hndi hmem (List.mem_singleton.mpr rfl)
        have habsp : pyGet (outputsBefore client scenario topic i) (storeKeyOf p) = none := by
          rw [hshape]
          exact pyGet_zip_none (keysOf (scenario.phases.take (i - 1))) vals
            (storeKeyOf p) hknotin
        refine ⟨resp, ?_⟩
        have hobi1 : outputsBefore client scenario topic (i + 1)
            = (runPhasesFrom client scenario topic 1 [] (scenario.phases.take i)).1 := rfl
        rw [hobi1, htake, hdec,
          runPhasesFrom_cons_ok client scenario topic i
            (outputsBefore client scenario topic i) p [] o2 hx,
          runPhasesFrom_nil, ho2,
          pySet_append_of_absent (outputsBefore client scenario topic i)
            (storeKeyOf p) resp habsp]

/-- Witness for C9: the architecture scenario under an all-succeeding client,
instantiated at phase 2. -/
theorem run_loop_invariant_witness :
    (outputsBefore okClient architecture "" 1 = [] ∧
     (∀ (i : Nat) (p : PhaseDef), architecture.phases[i - 1]? = some p → 1 ≤ i →
      okThrough okClient architecture "" (i - 1) →
      ((outputsBefore okClient architecture "" i).map Prod.fst
          = keysOf (architecture.phases.take (i - 1))) ∧
      (okThrough okClient architecture "" i →
        ∃ v : String, outputsBefore okClient architecture "" (i + 1)
            = outputsBefore okClient architecture "" i ++ [(storeKeyOf p, v)]))) ∧
    architecture.phases[2 - 1]? = some archPhase2 ∧
    okThrough okClient architecture "" (2 - 1) :=
  ⟨run_loop_invariant architecture (by decide) okClient "", by decide, by decide⟩

end AutogenDemo

namespace AutogenDemo

/-- If the first `k - 1` phases succeed and phase `k`'s call raises `e`, the
run aborts there: the final state is the phase-`k` entry state and the
surfaced error is exactly `e`. -/
theorem run_fail_at (scenario : Scenario) (client : Client) (topic : String)
    (k : Nat) (p : PhaseDef) (e : String)
    (hget : scenario.phases[k - 1]? = some p) (h1 : 1 ≤ k)
    (hok : okThrough client scenario topic (k - 1))
    (hx : execute_phase client scenario topic
      (outputsBefore client scenario topic k) k p = Except.error e) :
    runPhases client scenario topic = (outputsBefore client scenario topic k, some e) := by
  have hlent : (scenario.phases.take (k - 1)).length = k - 1 :=
    length_take_of_get scenario.phases (k - 1) p hget
  have hlt := (List.getElem?_eq_some.mp hget).1
  have hgetel := (List.getElem?_eq_some.mp hget).2
  have hidx : 1 + (scenario.phases.take (k - 1)).length = k := by
    rw [hlent]
    omega
  have hob : outputsBefore client scenario topic k
      = (runPhasesFrom client scenario topic 1 [] (scenario.phases.take (k - 1))).1 := rfl
  have hdropcons : scenario.phases.drop (k - 1) = p :: scenario.phases.drop k := by
    rw [List.drop_eq_getElem_cons hlt, hgetel]
    have hsub : k - 1 + 1 = k := by omega
    rw [hsub]
  have hsplit := runPhasesFrom_append_ok (scenario.phases.drop (k - 1)) client scenario topic
    (scenario.phases.take (k - 1)) 1 [] hok
  rw [hidx, ← hob] at hsplit
  have hrp : runPhases client scenario topic
      = runPhasesFrom client scenario topic 1 [] scenario.phases := rfl
  rw [hrp]
  conv_lhs => rw [← List.take_append_drop (k - 1) scenario.phases]
  rw [hsplit, hdropcons,
    runPhasesFrom_cons_err client scenario topic k (outputsBefore client scenario topic k)
      p (scenario.phases.drop k) e hx]

/-- C4: if phase `k`'s completion call fails, the run stops with the outputs
of phases `1..k-1` intact, the keys of phases `k..N` absent, and no phase
after `k` invoking the completion client at all. -/
theorem phase_failure_halts_chain :
    ∀ scenario ∈ tableScenarios, ∀ (client : Client) (topic : String) (k : Nat)
      (p : PhaseDef) (e : String),
    scenario.phases[k - 1]? = some p → 1 ≤ k →
    okThrough client scenario topic (k - 1) →
    execute_phase client scenario topic (outputsBefore client scenario topic k) k p
      = Except.error e →
    ((runPhases client scenario topic).1 = outputsBefore client scenario topic k) ∧
    ((runPhases client scenario topic).2 = some e) ∧
    (∀ q ∈ scenario.phases.drop (k - 1),
      pyGet (runPhases client scenario topic).1 (storeKeyOf q) = none) ∧
    (∀ client2 : Client,
      (∀ (j : Nat) (su uu : String), j ≤ k → client2 j su uu = client j su uu) →
      runPhases client2 scenario topic = runPhases client scenario topic) := by
  intro scenario hs client topic k p e hget h1 hok hx
  have hnd := table_keys_nodup scenario hs
  have hfail := run_fail_at scenario client topic k p e hget h1 hok hx
  have hlent : (scenario.phases.take (k - 1)).length = k - 1 :=
    length_take_of_get scenario.phases (k - 1) p hget
  have hidx : 1 + (scenario.phases.take (k - 1)).length = k := by
    rw [hlent]
    omega
  have hlt := (List.getElem?_eq_some.mp hget).1
  have hgetel := (List.getElem?_eq_some.mp hget).2
  have hdropcons : scenario.phases.drop (k - 1) = p :: scenario.phases.drop k := by
    rw [List.drop_eq_getElem_cons hlt, hgetel]
    have hsub : k - 1 + 1 = k := by omega
    rw [hsub]
  refine ⟨by rw [hfail], by rw [hfail], ?_, ?_⟩
  · intro q hq
    rw [hfail]
    obtain ⟨vals, hlenv, hshape⟩ := outputsBefore_shape scenario client topic k hnd hok
    rw [hshape]
    apply pyGet_zip_none
    intro hmem
    exact keys_take_drop_disjoint scenario (k - 1) hnd hmem (List.mem_map_of_mem storeKeyOf hq)
  · intro client2 hagree
    have hob : outputsBefore client scenario topic k
        = (runPhasesFrom client scenario topic 1 [] (scenario.phases.take (k - 1))).1 := rfl
    have hpre2 : runPhasesFrom client2 scenario topic 1 [] (scenario.phases.take (k - 1))
        = runPhasesFrom client scenario topic 1 [] (scenario.phases.take (k - 1)) := by
      apply runPhasesFrom_congr scenario topic (scenario.phases.take (k - 1)) client client2 1 []
      intro j su uu hj1 hj2
      rw [hlent] at hj2
      exact hagree j su uu (by omega)
    have hok2 : (runPhasesFrom client2 scenario topic 1 []
        (scenario.phases.take (k - 1))).2 = none := by
      rw [hpre2]
      exact hok
    have hsplit2 := runPhasesFrom_append_ok (scenario.phases.drop (k - 1)) client2 scenario
      topic (scenario.phases.take (k - 1)) 1 [] hok2
    rw [hpre2, hidx, ← hob] at hsplit2
    have hcall2 : client2 k (systemMessage p)
          (buildUserMessage scenario topic (outputsBefore client scenario topic k) k p)
        = client k (systemMessage p)
          (buildUserMessage scenario topic (outputsBefore client scenario topic k) k p) :=
      hagree k (systemMessage p)
        (buildUserMessage scenario topic (outputsBefore client scenario topic k) k p)
        (Nat.le_refl k)
    have hx2 : execute_phase client2 scenario topic
        (outputsBefore client scenario topic k) k p = Except.error e := by
      unfold execute_phase at hx ⊢
      rw [hcall2]
      exact hx
    have hrp2 : runPhases client2 scenario topic
        = runPhasesFrom client2 scenario topic 1 [] scenario.phases := rfl
    rw [hrp2]
    conv_lhs => rw [← List.take_append_drop (k - 1) scenario.phases]
    rw [hsplit2, hdropcons,
      runPhasesFrom_cons_err client2 scenario topic k (outputsBefore client scenario topic k)
        p (scenario.phases.drop k) e hx2, hfail]

/-- Witness for C4: the conference scenario under a client whose phase-2 call
raises `boom`. -/
theorem phase_failure_halts_chain_witness :
    conference.phases[2 - 1]? = some confPhase2 ∧
    1 ≤ 2 ∧
    okThrough stepFailClient conference "" (2 - 1) ∧
    execute_phase stepFailClient conference ""
      (outputsBefore stepFailClient conference "" 2) 2 confPhase2 = Except.error "boom" ∧
    (((runPhases stepFailClient conference "").1
        = outputsBefore stepFailClient conference "" 2) ∧
     ((runPhases stepFailClient conference "").2 = some "boom") ∧
     (∀ q ∈ conference.phases.drop (2 - 1),
       pyGet (runPhases stepFailClient conference "").1 (storeKeyOf q) = none) ∧
     (∀ client2 : Client,
       (∀ (j : Nat) (su uu : String), j ≤ 2 → client2 j su uu = stepFailClient j su uu) →
       runPhases client2 conference "" = runPhases stepFailClient conference "")) :=
  ⟨by decide, by decide, by decide, by rfl,
   phase_failure_halts_chain conference (by decide) stepFailClient "" 2 confPhase2 "boom"
     (by decide) (by decide) (by decide) (by rfl)⟩

/-- C6 amended: a failing completion call aborts the run and its error is
surfaced to the caller unchanged — it is not swallowed, but neither the phase
index nor the phase name is attached to it. -/
theorem error_propagated_unchanged :
    ∀ (scenario : Scenario) (client : Client) (topic : String) (k : Nat)
      (p : PhaseDef) (e : String),
    scenario.phases[k - 1]? = some p → 1 ≤ k →
    okThrough client scenario topic (k - 1) →
    execute_phase client scenario topic (outputsBefore client scenario topic k) k p
      = Except.error e →
    (runPhases client scenario topic).2 = some e ∧
    (runPhases client scenario topic).1 = outputsBefore client scenario topic k := by
  intro scenario client topic k p e hget h1 hok hx
  have hfail := run_fail_at scenario client topic k p e hget h1 hok hx
  exact ⟨by rw [hfail], by rw [hfail]⟩

/-- Witness for the amended C6: the conference scenario under a client whose
phase-1 call raises `boom`. -/
theorem error_propagated_unchanged_witness :
    conference.phases[1 - 1]? = some confPhase1 ∧
    1 ≤ 1 ∧
    okThrough failClient conference "" (1 - 1) ∧
    execute_phase failClient conference ""
      (outputsBefore failClient conference "" 1) 1 confPhase1 = Except.error "boom" ∧
    ((runPhases failClient conference "").2 = some "boom" ∧
     (runPhases failClient conference "").1 = outputsBefore failClient conference "" 1) :=
  ⟨by decide, by decide, by decide, by rfl,
   error_propagated_unchanged conference failClient "" 1 confPhase1 "boom"
     (by decide) (by decide) (by decide) (by rfl)⟩

end AutogenDemo

namespace AutogenDemo

/-- Two transcript names whose scenario-type parts begin with different
characters differ. -/
theorem fileName_ne_head {c1 c2 : Char} {l1 l2 : List Char}
    (st1 st2 t1 t2 ts1 ts2 : String)
    (h1 : st1.data = c1 :: l1) (h2 : st2.data = c2 :: l2) (hc : c1 ≠ c2) :
    outputFileName ⟨st1, t1, ts1⟩ ≠ outputFileName ⟨st2, t2, ts2⟩ := by
  intro heq
  have hd := congrArg String.data heq
  unfold outputFileName at hd
  simp only [String.data_append] at hd
  rw [h1, h2] at hd
  simp only [List.cons_append, List.nil_append, List.append_assoc, List.cons.injEq] at hd
  exact hc hd.2.2.2.2.2.2.2.2.2.2.2.1

/-- C8 amended: the transcript name is determined by the scenario type and
the second-resolution timestamp alone; two runs differing in scenario type
(among the four valid ids) or in timestamp get distinct file names — but runs
of the same scenario in the same second collide. -/
theorem filename_unique_given_distinct_timestamp_or_scenario :
    ∀ r1 r2 : RunRecord,
    r1.scenario_type ∈ scenarioTypeList → r2.scenario_type ∈ scenarioTypeList →
    (r1.scenario_type ≠ r2.scenario_type ∨ r1.timestamp ≠ r2.timestamp) →
    outputFileName r1 ≠ outputFileName r2 := by
  intro r1 r2 hm1 hm2 hdisj
  obtain ⟨st1, t1, ts1⟩ := r1
  obtain ⟨st2, t2, ts2⟩ := r2
  simp only [scenarioTypeList, List.mem_cons, List.not_mem_nil, or_false] at hm1 hm2
  by_cases hst : st1 = st2
  · subst hst
    have hts : ts1 ≠ ts2 := by
      rcases hdisj with h | h
      · exact absurd rfl h
      · exact h
    intro heq
    have hd := congrArg String.data heq
    unfold outputFileName at hd
    simp only [String.data_append, List.append_assoc] at hd
    have hd2 := List.append_cancel_left hd
    have hd3 := List.append_cancel_left hd2
    have hd4 := List.append_cancel_left hd3
    have hd5 := List.append_cancel_right hd4
    exact hts (String.ext hd5)
  · rcases hm1 with h1 | h1 | h1 | h1 <;> rcases hm2 with h2 | h2 | h2 | h2 <;>
      subst h1 <;> subst h2 <;>
      first
        | exact absurd rfl hst
        | exact fileName_ne_head _ _ _ _ _ _ rfl rfl (by decide)

/-- Witness for the amended C8: same timestamp, different scenario types, and
same scenario type, different timestamps. -/
theorem filename_unique_given_distinct_timestamp_or_scenario_witness :
    RunRecord.scenario_type ⟨"conference", "AI", "20251012_093000"⟩ ∈ scenarioTypeList ∧
    RunRecord.scenario_type ⟨"marketing", "AI", "20251012_093000"⟩ ∈ scenarioTypeList ∧
    outputFileName ⟨"conference", "AI", "20251012_093000"⟩
      ≠ outputFileName ⟨"marketing", "AI", "20251012_093000"⟩ ∧
    outputFileName ⟨"conference", "AI", "20251012_093000"⟩
      ≠ outputFileName ⟨"conference", "AI", "20251012_093001"⟩ :=
  ⟨by decide, by decide,
   filename_unique_given_distinct_timestamp_or_scenario
     ⟨"conference", "AI", "20251012_093000"⟩ ⟨"marketing", "AI", "20251012_093000"⟩
     (by decide) (by decide) (Or.inl (by decide)),
   filename_unique_given_distinct_timestamp_or_scenario
     ⟨"conference", "AI", "20251012_093000"⟩ ⟨"conference", "AI", "20251012_093001"⟩
     (by decide) (by decide) (Or.inr (by decide))⟩

end AutogenDemo
